import Mathlib

/-!
# Verification development for `pkg/slurm/slurm.go`

A shallow embedding of the Slurm adapter (`getJobStatus`, `JobStatus`,
`GetNumJobs`, `GetNumNodes`) together with the pieces of the Go standard
library it calls (`strings.Split`, `strings.TrimRight`, `strings.HasSuffix`,
`strings.Contains`, `strconv.Itoa`, `strconv.Atoi`).

External effects (`exec.LookPath`, `advexec.Advcmd.Run`, `os.Getenv`) are
taken from a `Host` record over an arbitrary world state; every function
threads the world explicitly and records the external calls it makes.

Go strings are byte strings; they are modelled by Lean strings.  Every
pattern the code searches for is ASCII, so the byte view and the character
view of splitting, trimming and searching coincide.
-/

namespace Slurm

/-! ## Go standard library: package `strings` -/

/-- Character-list worker of `Split`: cut at every occurrence of `sep`. -/
def splitChars (sep : Char) : List Char → List (List Char)
  | [] => [[]]
  | c :: cs =>
    if c = sep then [] :: splitChars sep cs
    else
      match splitChars sep cs with
      | [] => [[c]]
      | l :: ls => (c :: l) :: ls

/-- Go `strings.Split(s, sep)` for a separator of one character (the code
only ever splits on a newline).  A string without separator yields a slice of
length one, so the empty string yields one empty string. -/
def Split (s : String) (sep : Char) : List String :=
  (splitChars sep s.data).map String.mk

/-- Go `strings.TrimRight(s, cutset)`: drop every trailing character that
occurs in `cutset`. -/
def TrimRight (s : String) (cutset : String) : String :=
  String.mk ((s.data.reverse.dropWhile (fun c => decide (c ∈ cutset.data))).reverse)

/-- Go `strings.HasSuffix(s, suffix)`. -/
def HasSuffix (s : String) (suffix : String) : Bool :=
  List.isSuffixOf suffix.data s.data

/-- Character-list worker of `Contains`: `sub` starts at some position of
the list. -/
def containsChars (sub : List Char) : List Char → Bool
  | [] => List.isPrefixOf sub []
  | c :: cs => List.isPrefixOf sub (c :: cs) || containsChars sub cs

/-- Go `strings.Contains(s, substr)`. -/
def Contains (s : String) (substr : String) : Bool :=
  containsChars substr.data s.data

/-! ## Go standard library: package `strconv` -/

/-- The two sentinel errors a `*strconv.NumError` can wrap. -/
inductive NumErrKind where
  | ErrSyntax
  | ErrRange
  deriving DecidableEq, Repr

/-- Go `error` values: a `*strconv.NumError`, or any other error, identified
by its message. -/
inductive GoError where
  | numError (func : String) (num : String) (err : NumErrKind)
  | other (msg : String)
  deriving DecidableEq, Repr

/-- The decimal digit character of `d < 10`. -/
def digitChar (d : Nat) : Char := Char.ofNat (48 + d)

/-- Digit loop of `strconv.FormatInt` in base 10: digits are produced from
the least significant one and pushed in front of `acc`.  `fuel` bounds the
number of iterations; `u + 1` always suffices. -/
def formatLoop : Nat → Nat → List Char → List Char
  | 0, _, acc => acc
  | fuel + 1, u, acc =>
    if u < 10 then digitChar u :: acc
    else formatLoop fuel (u / 10) (digitChar (u % 10) :: acc)

/-- Decimal text of a natural number, without leading zeros. -/
def formatUint (u : Nat) : List Char := formatLoop (u + 1) u []

/-- Go `strconv.Itoa(i)`. -/
def Itoa (i : Int) : String :=
  if i < 0 then String.mk ('-' :: formatUint i.natAbs) else String.mk (formatUint i.natAbs)

/-- Digit loop of `strconv.ParseUint` in base 10 with result bound `maxVal`:
a byte that is not a decimal digit is a syntax error; as soon as the
accumulated value exceeds `maxVal` the loop stops with a range error and the
value `maxVal`. -/
def parseUintLoop (maxVal : Nat) : List Char → Nat → Nat × Option NumErrKind
  | [], n => (n, none)
  | c :: cs, n =>
    if 48 ≤ c.toNat ∧ c.toNat ≤ 57 then
      if n * 10 + (c.toNat - 48) > maxVal then (maxVal, some NumErrKind.ErrRange)
      else parseUintLoop maxVal cs (n * 10 + (c.toNat - 48))
    else (0, some NumErrKind.ErrSyntax)

/-- Go `strconv.ParseUint(s, 10, 0)` on a platform whose `int` has `intSize`
bits: the empty string is a syntax error. -/
def ParseUint (intSize : Nat) (s : List Char) : Nat × Option NumErrKind :=
  match s with
  | [] => (0, some NumErrKind.ErrSyntax)
  | c :: cs => parseUintLoop (2 ^ intSize - 1) (c :: cs) 0

/-- Go `strconv.Atoi(s)`, documented as `ParseInt(s, 10, 0)` converted to
`int`, on a platform whose `int` has `intSize` bits: an optional sign, then
decimal digits.  On a syntax error the value is 0; on a range error it is the
nearest representable integer. -/
def Atoi (intSize : Nat) (s : String) : Int × Option GoError :=
  match s.data with
  | [] => (0, some (GoError.numError "Atoi" s NumErrKind.ErrSyntax))
  | c :: cs =>
    let neg : Bool := decide (c = '-')
    let body : List Char := if c = '+' ∨ c = '-' then cs else c :: cs
    match ParseUint intSize body with
    | (_, some NumErrKind.ErrSyntax) => (0, some (GoError.numError "Atoi" s NumErrKind.ErrSyntax))
    | (un, _) =>
      let cutoff : Nat := 2 ^ (intSize - 1)
      if neg = false ∧ un ≥ cutoff then
        ((cutoff : Int) - 1, some (GoError.numError "Atoi" s NumErrKind.ErrRange))
      else if neg = true ∧ un > cutoff then
        (-(cutoff : Int), some (GoError.numError "Atoi" s NumErrKind.ErrRange))
      else if neg = true then (-(un : Int), none)
      else ((un : Int), none)

/-! ## Data model -/

/-- Modelled from the spec: the enumeration `hpcjob.Status` of the external
package `go_hpcjob`, of which the code uses the five constants
`StatusUnknown`, `StatusQueued`, `StatusRunning`, `StatusStop` and
`StatusDone`. -/
inductive Status where
  | StatusUnknown
  | StatusQueued
  | StatusRunning
  | StatusStop
  | StatusDone
  deriving DecidableEq, Repr

/-- The fields of `advexec.Advcmd` (external package `go_exec`) the code sets
before running a command. -/
structure Advcmd where
  BinPath : String
  CmdArgs : List String
  deriving DecidableEq, Repr

/-- Modelled from the spec: the command result of the external package
`go_exec` (captured standard output, standard error and the failure, if any);
these are the fields of `advexec.Result` the code reads. -/
structure Result where
  Stdout : String
  Stderr : String
  Err : Option GoError
  deriving DecidableEq, Repr

/-- An external call made by the adapter. -/
inductive Event where
  | lookPath (file : String)
  | run (cmd : Advcmd)
  deriving DecidableEq, Repr

/-- The operating-system services the adapter consumes, over a world state
`σ`: `exec.LookPath`, `Advcmd.Run` (which may change the world) and
`os.Getenv` (an unset variable reads as the empty string). -/
structure Host (σ : Type) where
  LookPath : σ → String → String × Option GoError
  Run : σ → Advcmd → Result × σ
  Getenv : σ → String → String

/-- How a Go call ends: it returns a value, or a run-time panic unwinds it. -/
inductive Outcome (α : Type) where
  | returned (val : α)
  | panicked
  deriving DecidableEq, Repr

/-- A finished call: its outcome, the world it leaves, and the external
calls it made, in order. -/
structure Exec (σ : Type) (α : Type) where
  out : Outcome α
  world : σ
  events : List Event
  deriving DecidableEq

/-- Go index expression `a[i]` with a signed index: `none` stands for the
run-time panic "index out of range". -/
def index? {α : Type} (a : List α) (i : Int) : Option α :=
  if 0 ≤ i then a[i.toNat]? else none

/-! ## The adapter -/

def envVarNumNodes : String := "SLURM_JOB_NUM_NODES"

def envVarPartition : String := "SLURM_JOB_PARTITION"

def envVarListNodes : String := "SLURM_JOB_NODELIST"

/-- Source `removeFromSlice`: `append(a[:idx], a[idx+1:]...)`. -/
def removeFromSlice (a : List String) (idx : Nat) : List String :=
  a.take idx ++ a.drop (idx + 1)

/-- The loop of `getJobStatus` over `lines`,
`for i := 0; i < len(lines); i++ { if lines[i] == "" { lines = removeFromSlice(lines, i) } }`,
started at index `i`.  Each iteration increases `i` and never lengthens
`lines`, so `len(lines) - i` iterations suffice; `fuel` bounds them. -/
def removeEmptyLoop : Nat → Nat → List String → List String
  | 0, _, lines => lines
  | fuel + 1, i, lines =>
    if h : i < lines.length then
      if lines[i] = "" then removeEmptyLoop fuel (i + 1) (removeFromSlice lines i)
      else removeEmptyLoop fuel (i + 1) lines
    else lines

/-- The value of `lines` after the loop of `getJobStatus`. -/
def removeEmptyLines (lines : List String) : List String :=
  removeEmptyLoop lines.length 0 lines

/-- The expression `strings.TrimRight(lines[len(lines)-1], "\n")` of
`getJobStatus` on the standard output of a successful `squeue`; `none` when
the index is out of range. -/
def rawStatus (stdout : String) : Option String :=
  let lines := removeEmptyLines (Split stdout '\n')
  match index? lines ((lines.length : Int) - 1) with
  | none => none
  | some l => some (TrimRight l "\n")

/-- The command `getJobStatus` runs first: `squeue -j <jobID> --format=%t`,
with the path `exec.LookPath("squeue")` returned. -/
def squeueStatusCmd {σ : Type} (h : Host σ) (jobID : Int) (w : σ) : Advcmd :=
  ⟨(h.LookPath w "squeue").1, ["-j", Itoa jobID, "--format=%t"]⟩

/-- The command of the `case "ST"` branch: `sacct -j <jobID> --format=state`,
with the path `exec.LookPath("sacct")` returned. -/
def sacctStateCmd {σ : Type} (h : Host σ) (jobID : Int) (w : σ) : Advcmd :=
  ⟨(h.LookPath w "sacct").1, ["-j", Itoa jobID, "--format=state"]⟩

/-- The command `GetNumJobs` runs: `squeue -p <partitionName> -u <user>`. -/
def squeueListCmd {σ : Type} (h : Host σ) (partitionName : String) (user : String) (w : σ) :
    Advcmd :=
  ⟨(h.LookPath w "squeue").1, ["-p", partitionName, "-u", user]⟩

/-- The `case "ST"` branch of `getJobStatus`: refine the status with
`sacct`. -/
def sacctStatus {σ : Type} (h : Host σ) (jobID : Int) (w : σ) :
    Exec σ (Status × Option GoError) :=
  let lp := h.LookPath w "sacct"
  match lp.2 with
  | some err => ⟨Outcome.returned (Status.StatusUnknown, some err), w, [Event.lookPath "sacct"]⟩
  | none =>
    let sacctCmd : Advcmd := sacctStateCmd h jobID w
    let r := h.Run w sacctCmd
    let resSacctCmd := r.1
    let ev := [Event.lookPath "sacct", Event.run sacctCmd]
    match resSacctCmd.Err with
    | none =>
      let output := Split resSacctCmd.Stdout '\n'
      if output.length > 2 ∧ Contains (output.getD 2 "") "COMPLETED" = true then
        ⟨Outcome.returned (Status.StatusDone, none), r.2, ev⟩
      else ⟨Outcome.returned (Status.StatusStop, none), r.2, ev⟩
    | some _ => ⟨Outcome.returned (Status.StatusStop, none), r.2, ev⟩

/-- Source `getJobStatus`. -/
def getJobStatus {σ : Type} (h : Host σ) (jobID : Int) (w : σ) :
    Exec σ (Status × Option GoError) :=
  let lp := h.LookPath w "squeue"
  match lp.2 with
  | some err => ⟨Outcome.returned (Status.StatusUnknown, some err), w, [Event.lookPath "squeue"]⟩
  | none =>
    let cmd : Advcmd := squeueStatusCmd h jobID w
    let r := h.Run w cmd
    let res := r.1
    let ev := [Event.lookPath "squeue", Event.run cmd]
    match res.Err with
    | some err =>
      if HasSuffix (TrimRight res.Stderr "\n") "Invalid job id specified" = true then
        ⟨Outcome.returned (Status.StatusDone, none), r.2, ev⟩
      else ⟨Outcome.returned (Status.StatusUnknown, some err), r.2, ev⟩
    | none =>
      match rawStatus res.Stdout with
      | none => ⟨Outcome.panicked, r.2, ev⟩
      | some raw =>
        if raw = "R" then ⟨Outcome.returned (Status.StatusRunning, none), r.2, ev⟩
        else if raw = "PD" then ⟨Outcome.returned (Status.StatusQueued, none), r.2, ev⟩
        else if raw = "ST" then
          let s := sacctStatus h jobID r.2
          ⟨s.out, s.world, ev ++ s.events⟩
        else ⟨Outcome.returned (Status.StatusUnknown, none), r.2, ev⟩

/-- The `for _, jobID := range jobIDs` loop of `JobStatus`, with the slice
`s` accumulated so far.  A failing query returns `nil` (the empty slice) and
the error at once. -/
def jobStatusLoop {σ : Type} (h : Host σ) :
    List Int → List Status → σ → Exec σ (List Status × Option GoError)
  | [], s, w => ⟨Outcome.returned (s, none), w, []⟩
  | jobID :: rest, s, w =>
    let q := getJobStatus h jobID w
    match q.out with
    | Outcome.panicked => ⟨Outcome.panicked, q.world, q.events⟩
    | Outcome.returned (_, some err) => ⟨Outcome.returned ([], some err), q.world, q.events⟩
    | Outcome.returned (jobStatus, none) =>
      let t := jobStatusLoop h rest (s ++ [jobStatus]) q.world
      ⟨t.out, t.world, q.events ++ t.events⟩

/-- Source `JobStatus`. -/
def JobStatus {σ : Type} (h : Host σ) (jobIDs : List Int) (w : σ) :
    Exec σ (List Status × Option GoError) :=
  jobStatusLoop h jobIDs [] w

/-- The counting loop of `GetNumJobs`. -/
def countJobs (lines : List String) : Int :=
  lines.foldl
    (fun numJobs line => if Contains line "JOBID" = true ∨ line = "" then numJobs else numJobs + 1) 0

/-- Source `GetNumJobs`. -/
def GetNumJobs {σ : Type} (h : Host σ) (partitionName : String) (user : String) (w : σ) :
    Exec σ (Int × Option GoError) :=
  let lp := h.LookPath w "squeue"
  match lp.2 with
  | some err => ⟨Outcome.returned (-1, some err), w, [Event.lookPath "squeue"]⟩
  | none =>
    let cmd : Advcmd := squeueListCmd h partitionName user w
    let r := h.Run w cmd
    let res := r.1
    let ev := [Event.lookPath "squeue", Event.run cmd]
    match res.Err with
    | some err => ⟨Outcome.returned (-1, some err), r.2, ev⟩
    | none => ⟨Outcome.returned (countJobs (Split res.Stdout '\n'), none), r.2, ev⟩

/-- Source `GetNumNodes`, on a platform whose `int` has `intSize` bits. -/
def GetNumNodes {σ : Type} (h : Host σ) (intSize : Nat) (w : σ) : Int × Option GoError :=
  let valStr := h.Getenv w envVarNumNodes
  Atoi intSize valStr

/-- Source `GetPartition`. -/
def GetPartition {σ : Type} (h : Host σ) (w : σ) : String :=
  h.Getenv w envVarPartition

/-- Source `GetListNode`. -/
def GetListNode {σ : Type} (h : Host σ) (w : σ) : String :=
  h.Getenv w envVarListNodes

/-! ## Concrete hosts used to exercise the adapter -/

/-- A host whose world is the number of commands run so far: exactly the
tools listed in `installed` are found (under `/usr/bin/`), a command answers
`respond` of itself, and the environment is `env`. -/
def tableHost (installed : List String) (respond : Advcmd → Result)
    (env : String → String) : Host Nat where
  LookPath := fun _ file =>
    if file ∈ installed then ("/usr/bin/" ++ file, none)
    else ("", some (GoError.other "executable file not found"))
  Run := fun w cmd => (respond cmd, w + 1)
  Getenv := fun _ name => env name

/-- Both tools installed; `squeue` answers `sq` and `sacct` answers `sa`. -/
def slurmHost (sq : Result) (sa : Result) : Host Nat :=
  tableHost ["squeue", "sacct"]
    (fun cmd => if cmd.BinPath = "/usr/bin/squeue" then sq else sa) (fun _ => "")

/-- A successful command printing `out`. -/
def okResult (out : String) : Result := ⟨out, "", none⟩

/-- A failed command printing `err` on standard error. -/
def failResult (err : String) : Result := ⟨"", err, some (GoError.other "exit status 1")⟩

/-! ## Names for the intermediate results of `getJobStatus` -/

/-- The result of the `squeue` run of `getJobStatus` and the world after it. -/
def squeueRun {σ : Type} (h : Host σ) (jobID : Int) (w : σ) : Result × σ :=
  h.Run w (squeueStatusCmd h jobID w)

/-- The result of the `sacct` run of `getJobStatus`, which starts in the world
left by the `squeue` run, and the world after it. -/
def sacctRun {σ : Type} (h : Host σ) (jobID : Int) (w : σ) : Result × σ :=
  h.Run (squeueRun h jobID w).2 (sacctStateCmd h jobID (squeueRun h jobID w).2)

/-- The individual queries behind `JobStatus`: `getJobStatus` for each job ID
in input order, each one started in the world the previous one left. -/
def queries {σ : Type} (h : Host σ) : List Int → σ → List (Exec σ (Status × Option GoError))
  | [], _ => []
  | jobID :: rest, w => getJobStatus h jobID w :: queries h rest (getJobStatus h jobID w).world

/-- A host on which `squeue -j <id> --format=%t` reports job 1 running, job 2
pending and job 3 gone from the queue, and fails in another way for any other
job. -/
def threeJobsHost : Host Nat :=
  tableHost ["squeue", "sacct"]
    (fun cmd =>
      if cmd.CmdArgs = ["-j", "1", "--format=%t"] then okResult "ST\nR\n"
      else if cmd.CmdArgs = ["-j", "2", "--format=%t"] then okResult "ST\nPD\n"
      else if cmd.CmdArgs = ["-j", "3", "--format=%t"] then
        failResult "slurm_load_jobs error: Invalid job id specified\n"
      else failResult "slurm_load_jobs error: Unable to contact slurm controller\n")
    (fun _ => "")

/-- A host on which `squeue -j 2 --format=%t` succeeds and prints nothing,
and `squeue` fails for every other job. -/
def silentJobHost : Host Nat :=
  tableHost ["squeue", "sacct"]
    (fun cmd =>
      if cmd.CmdArgs = ["-j", "2", "--format=%t"] then okResult ""
      else failResult "slurm_load_jobs error: Unable to contact slurm controller\n")
    (fun _ => "")

/-- Text made of the given lines, separated by newlines.  A text that ends
with a newline has the empty string as last line. -/
def joinLines : List String → String
  | [] => ""
  | [l] => l
  | l :: l2 :: ls => l ++ "\n" ++ joinLines (l2 :: ls)

/-- A host on which `squeue -p <partition> -u <user>` prints `out`. -/
def listingHost (out : String) : Host Nat :=
  tableHost ["squeue", "sacct"] (fun _ => okResult out) (fun _ => "")

/-- The number a list of decimal digit characters denotes, most significant
digit first. -/
def decimalValue (ds : List Char) : Nat :=
  ds.foldl (fun n c => n * 10 + (c.toNat - 48)) 0

/-- A valid integer text for an `int` of `intSize` bits: an optional sign
followed by one or more decimal digits, denoting a number between
`-2^(intSize-1)` and `2^(intSize-1) - 1`. -/
def IsIntegerText (intSize : Nat) (s : String) : Prop :=
  ∃ (sign ds : List Char),
    s.data = sign ++ ds ∧ (sign = [] ∨ sign = ['+'] ∨ sign = ['-']) ∧ ds ≠ [] ∧
    (∀ c ∈ ds, 48 ≤ c.toNat ∧ c.toNat ≤ 57) ∧
    (if sign = ['-'] then decimalValue ds ≤ 2 ^ (intSize - 1)
      else decimalValue ds < 2 ^ (intSize - 1))

/-- A host whose environment holds `SLURM_JOB_NUM_NODES=val` and nothing
else. -/
def allocHost (val : String) : Host Nat :=
  tableHost [] (fun _ => okResult "")
    (fun name => if name = "SLURM_JOB_NUM_NODES" then val else "")

/-! ## Lemmas on the string library -/

theorem string_mk_data (s : String) : String.mk s.data = s := rfl

theorem splitChars_ne_nil (sep : Char) (l : List Char) : splitChars sep l ≠ [] := by
  induction l with
  | nil => simp [splitChars]
  | cons c cs ih =>
    unfold splitChars
    split
    · simp
    · split <;> simp

theorem splitChars_append_sep (sep : Char) (l rest : List Char) (hl : sep ∉ l) :
    splitChars sep (l ++ sep :: rest) = l :: splitChars sep rest := by
  induction l with
  | nil => simp [splitChars]
  | cons c cs ih =>
    have hc : c ≠ sep := fun h => hl (by simp [h])
    have hcs : sep ∉ cs := fun h => hl (by simp [h])
    simp [splitChars, hc, ih hcs]

theorem splitChars_no_sep (sep : Char) (l : List Char) (hl : sep ∉ l) :
    splitChars sep l = [l] := by
  induction l with
  | nil => simp [splitChars]
  | cons c cs ih =>
    have hc : c ≠ sep := fun h => hl (by simp [h])
    have hcs : sep ∉ cs := fun h => hl (by simp [h])
    simp [splitChars, hc, ih hcs]

/-- Splitting "header, newline, status, newline" gives the two lines and a
final empty string. -/
theorem split_header_status (header status : String)
    (hh : '\n' ∉ header.data) (hs : '\n' ∉ status.data) :
    Split (header ++ "\n" ++ status ++ "\n") '\n' = [header, status, ""] := by
  have e : (header ++ "\n" ++ status ++ "\n").data
      = header.data ++ '\n' :: (status.data ++ '\n' :: []) := by
    simp [String.data_append]
  simp only [Split, e]
  rw [splitChars_append_sep _ _ _ hh, splitChars_append_sep _ _ _ hs]
  simp [splitChars, string_mk_data]

/-- The loop of `getJobStatus` on "header, status, empty string" with a
non-empty status keeps the status as last line. -/
theorem removeEmptyLines_header_status (header status : String) (hs : status ≠ "") :
    (removeEmptyLines [header, status, ""]).getLast? = some status := by
  by_cases hh : header = ""
  · simp [removeEmptyLines, removeEmptyLoop, removeFromSlice, hh, hs]
  · simp [removeEmptyLines, removeEmptyLoop, removeFromSlice, hh, hs]

theorem index?_last {α : Type} (a : List α) :
    index? a ((a.length : Int) - 1) = a.getLast? := by
  cases a using List.reverseRecOn with
  | nil => simp [index?]
  | append_singleton l x =>
    have : ((l ++ [x]).length : Int) - 1 = (l.length : Int) := by simp
    rw [this]
    simp [index?]

theorem trimRight_no_newline (s : String) (h : '\n' ∉ s.data) : TrimRight s "\n" = s := by
  unfold TrimRight
  have e : ("\n" : String).data = ['\n'] := rfl
  rw [e]
  have : s.data.reverse.dropWhile (fun c => decide (c ∈ ['\n'])) = s.data.reverse := by
    cases hr : s.data.reverse with
    | nil => rfl
    | cons c cs =>
      have hc : c ∈ s.data := by
        have : c ∈ s.data.reverse := by rw [hr]; simp
        simpa using this
      have : c ≠ '\n' := fun e => h (e ▸ hc)
      simp [List.dropWhile, this]
  rw [this]
  simp [string_mk_data]

theorem rawStatus_header_status (header status : String)
    (hh : '\n' ∉ header.data) (hs : '\n' ∉ status.data) (hne : status ≠ "") :
    rawStatus (header ++ "\n" ++ status ++ "\n") = some status := by
  unfold rawStatus
  simp only [split_header_status header status hh hs, index?_last,
    removeEmptyLines_header_status header status hne, trimRight_no_newline status hs]

/-! ## `getJobStatus` -/

/-- C1: when `squeue` is found and succeeds with standard output "header,
newline, status line, newline", `getJobStatus` returns Running with no error
for the status line "R" and Queued with no error for "PD"; in both cases the
only external calls are the lookup and the run of `squeue`, so `sacct` is
neither looked up nor run. -/
theorem getJobStatus_running_queued {σ : Type} (h : Host σ) (jobID : Int) (w : σ)
    (header : String) (hh : '\n' ∉ header.data)
    (hfound : (h.LookPath w "squeue").2 = none)
    (hok : (h.Run w (squeueStatusCmd h jobID w)).1.Err = none) :
    ((h.Run w (squeueStatusCmd h jobID w)).1.Stdout = header ++ "\n" ++ "R" ++ "\n" →
      (getJobStatus h jobID w).out = Outcome.returned (Status.StatusRunning, none) ∧
      (getJobStatus h jobID w).events
        = [Event.lookPath "squeue", Event.run (squeueStatusCmd h jobID w)]) ∧
    ((h.Run w (squeueStatusCmd h jobID w)).1.Stdout = header ++ "\n" ++ "PD" ++ "\n" →
      (getJobStatus h jobID w).out = Outcome.returned (Status.StatusQueued, none) ∧
      (getJobStatus h jobID w).events
        = [Event.lookPath "squeue", Event.run (squeueStatusCmd h jobID w)]) := by
  constructor
  · intro hout
    have hr := rawStatus_header_status header "R" hh (by decide) (by decide)
    simp [getJobStatus, hfound, hok, hout, hr]
  · intro hout
    have hr := rawStatus_header_status header "PD" hh (by decide) (by decide)
    simp [getJobStatus, hfound, hok, hout, hr]

theorem getJobStatus_running_queued_witness :
    (getJobStatus (slurmHost (okResult "ST\nR\n") (okResult "")) 42 0).out
        = Outcome.returned (Status.StatusRunning, none) ∧
    (getJobStatus (slurmHost (okResult "ST\nPD\n") (okResult "")) 42 0).out
        = Outcome.returned (Status.StatusQueued, none) ∧
    Event.lookPath "sacct" ∉ (getJobStatus (slurmHost (okResult "ST\nR\n") (okResult "")) 42 0).events :=
  ⟨((getJobStatus_running_queued (slurmHost (okResult "ST\nR\n") (okResult "")) 42 0 "ST"
      (by decide) (by decide) (by decide)).1 (by decide)).1,
   ((getJobStatus_running_queued (slurmHost (okResult "ST\nPD\n") (okResult "")) 42 0 "ST"
      (by decide) (by decide) (by decide)).2 (by decide)).1,
   by decide⟩

theorem trimRight_newlines (pre msg : List Char) (c : Char) (k : Nat) (hc : c ≠ '\n') :
    TrimRight (String.mk (pre ++ (msg ++ [c]) ++ List.replicate k '\n')) "\n"
      = String.mk (pre ++ (msg ++ [c])) := by
  unfold TrimRight
  have e : ("\n" : String).data = ['\n'] := rfl
  rw [e]
  congr 1
  simp only [List.reverse_append, List.reverse_replicate, List.reverse_cons, List.reverse_nil,
    List.nil_append, List.singleton_append, List.cons_append]
  rw [List.dropWhile_append_of_pos]
  · simp [List.dropWhile, hc]
  · intro a ha
    simp [List.eq_of_mem_replicate ha]

/-- C5: when `squeue` is found, its run fails, and its standard-error text is
"Invalid job id specified" after any prefix and before any number of trailing
newlines, `getJobStatus` returns Done with no error, and its only external
calls are the lookup and the run of `squeue`. -/
theorem getJobStatus_invalid_job_id {σ : Type} (h : Host σ) (jobID : Int) (w : σ)
    (pre : String) (k : Nat)
    (hfound : (h.LookPath w "squeue").2 = none)
    (hfail : (squeueRun h jobID w).1.Err ≠ none)
    (herr : (squeueRun h jobID w).1.Stderr
      = pre ++ "Invalid job id specified" ++ String.mk (List.replicate k '\n')) :
    (getJobStatus h jobID w).out = Outcome.returned (Status.StatusDone, none) ∧
    (getJobStatus h jobID w).events
      = [Event.lookPath "squeue", Event.run (squeueStatusCmd h jobID w)] := by
  unfold squeueRun at hfail herr
  have hm : ("Invalid job id specified" : String).data
      = ("Invalid job id specifie" : String).data ++ ['d'] := by decide
  have hs : HasSuffix (TrimRight (h.Run w (squeueStatusCmd h jobID w)).1.Stderr "\n")
      "Invalid job id specified" = true := by
    have e : pre ++ "Invalid job id specified" ++ String.mk (List.replicate k '\n')
        = String.mk (pre.data ++ (("Invalid job id specifie" : String).data ++ ['d'])
            ++ List.replicate k '\n') := by
      apply String.ext
      simp [String.data_append, hm]
    rw [herr, e, trimRight_newlines _ _ _ _ (by decide)]
    simp only [HasSuffix, hm, List.isSuffixOf_iff_suffix]
    exact List.suffix_append _ _
  cases he : (h.Run w (squeueStatusCmd h jobID w)).1.Err with
  | none => exact absurd he hfail
  | some err => simp [getJobStatus, hfound, he, hs]

theorem getJobStatus_invalid_job_id_witness :
    (getJobStatus (slurmHost (failResult "slurm_load_jobs error: Invalid job id specified\n")
        (okResult "")) 42 0).out = Outcome.returned (Status.StatusDone, none) :=
  (getJobStatus_invalid_job_id
    (slurmHost (failResult "slurm_load_jobs error: Invalid job id specified\n") (okResult ""))
    42 0 "slurm_load_jobs error: " 1 (by decide) (by decide) (by decide)).1

/-- C4: when `squeue` is found and succeeds with raw status "ST" and `sacct`
is found, `getJobStatus` returns Done with no error exactly when the `sacct`
run succeeds and its standard output, split on newlines, has more than two
lines of which the one at index 2 contains "COMPLETED"; in every other case it
returns Stop with no error. -/
theorem getJobStatus_stopping {σ : Type} (h : Host σ) (jobID : Int) (w : σ)
    (hfound : (h.LookPath w "squeue").2 = none)
    (hok : (squeueRun h jobID w).1.Err = none)
    (hraw : rawStatus (squeueRun h jobID w).1.Stdout = some "ST")
    (hsacct : (h.LookPath (squeueRun h jobID w).2 "sacct").2 = none) :
    ((getJobStatus h jobID w).out = Outcome.returned (Status.StatusDone, none) ↔
      ((sacctRun h jobID w).1.Err = none ∧
        2 < (Split (sacctRun h jobID w).1.Stdout '\n').length ∧
        ∃ line, (Split (sacctRun h jobID w).1.Stdout '\n')[2]? = some line ∧
          Contains line "COMPLETED" = true)) ∧
    ((getJobStatus h jobID w).out = Outcome.returned (Status.StatusDone, none) ∨
      (getJobStatus h jobID w).out = Outcome.returned (Status.StatusStop, none)) := by
  unfold sacctRun
  unfold squeueRun at *
  cases he : (h.Run (h.Run w (squeueStatusCmd h jobID w)).2
      (sacctStateCmd h jobID (h.Run w (squeueStatusCmd h jobID w)).2)).1.Err with
  | some err => simp [getJobStatus, sacctStatus, hfound, hok, hraw, hsacct, he]
  | none =>
    by_cases hl : 2 < (Split (h.Run (h.Run w (squeueStatusCmd h jobID w)).2
        (sacctStateCmd h jobID (h.Run w (squeueStatusCmd h jobID w)).2)).1.Stdout '\n').length
    · by_cases hc : Contains ((Split (h.Run (h.Run w (squeueStatusCmd h jobID w)).2
          (sacctStateCmd h jobID (h.Run w (squeueStatusCmd h jobID w)).2)).1.Stdout '\n').getD 2 "")
          "COMPLETED" = true
      · have hc2 := hc
        rw [List.getD_eq_getElem _ _ hl] at hc2
        simp [getJobStatus, sacctStatus, hfound, hok, hraw, hsacct, he, hl, hc,
          List.getElem?_eq_getElem hl, hc2]
      · have hc2 := hc
        rw [List.getD_eq_getElem _ _ hl] at hc2
        simp [getJobStatus, sacctStatus, hfound, hok, hraw, hsacct, he, hl, hc,
          List.getElem?_eq_getElem hl, hc2]
    · simp [getJobStatus, sacctStatus, hfound, hok, hraw, hsacct, he, hl]

theorem getJobStatus_stopping_witness :
    (getJobStatus (slurmHost (okResult "ST\nST\n")
        (okResult "     State \n---------- \n COMPLETED \n")) 42 0).out
      = Outcome.returned (Status.StatusDone, none) ∧
    ((getJobStatus (slurmHost (okResult "ST\nST\n")
        (okResult "     State \n---------- \n   RUNNING \n")) 42 0).out
      = Outcome.returned (Status.StatusDone, none) ∨
    (getJobStatus (slurmHost (okResult "ST\nST\n")
        (okResult "     State \n---------- \n   RUNNING \n")) 42 0).out
      = Outcome.returned (Status.StatusStop, none)) :=
  ⟨(getJobStatus_stopping (slurmHost (okResult "ST\nST\n")
      (okResult "     State \n---------- \n COMPLETED \n")) 42 0
      (by decide) (by decide) (by decide) (by decide)).1.2
      ⟨by decide, by decide, " COMPLETED ", by decide, by decide⟩,
   (getJobStatus_stopping (slurmHost (okResult "ST\nST\n")
      (okResult "     State \n---------- \n   RUNNING \n")) 42 0
      (by decide) (by decide) (by decide) (by decide)).2⟩

/-- C6: `getJobStatus` returns an error `e` (with status `st`) exactly when
`st` is Unknown and one of three cases holds: (1) the lookup of `squeue`
fails with `e`; (2) `squeue` is found, its run fails with `e`, and its
standard-error text without trailing newlines does not end with "Invalid job
id specified"; (3) `squeue` is found and succeeds, the raw status is "ST", and
the lookup of `sacct` fails with `e`.  When the lookup of `squeue` fails,
nothing else is looked up or run.  When both tools are found and `squeue`
succeeds, no error is returned, whatever the `sacct` run does. -/
theorem getJobStatus_error_iff {σ : Type} (h : Host σ) (jobID : Int) (w : σ) :
    (∀ (st : Status) (e : GoError),
      (getJobStatus h jobID w).out = Outcome.returned (st, some e) ↔
        st = Status.StatusUnknown ∧
        ((h.LookPath w "squeue").2 = some e ∨
         ((h.LookPath w "squeue").2 = none ∧ (squeueRun h jobID w).1.Err = some e ∧
            HasSuffix (TrimRight (squeueRun h jobID w).1.Stderr "\n")
              "Invalid job id specified" = false) ∨
         ((h.LookPath w "squeue").2 = none ∧ (squeueRun h jobID w).1.Err = none ∧
            rawStatus (squeueRun h jobID w).1.Stdout = some "ST" ∧
            (h.LookPath (squeueRun h jobID w).2 "sacct").2 = some e))) ∧
    ((h.LookPath w "squeue").2 ≠ none →
      (getJobStatus h jobID w).events = [Event.lookPath "squeue"]) ∧
    ((h.LookPath w "squeue").2 = none → (squeueRun h jobID w).1.Err = none →
      (h.LookPath (squeueRun h jobID w).2 "sacct").2 = none →
      ∀ (st : Status) (e : GoError),
        (getJobStatus h jobID w).out ≠ Outcome.returned (st, some e)) := by
  unfold squeueRun
  cases hlp : (h.LookPath w "squeue").2 with
  | some e0 =>
    refine ⟨?_, ?_, ?_⟩
    · intro st e
      simp [getJobStatus, hlp]
      intro _
      exact eq_comm
    · intro _
      simp [getJobStatus, hlp]
    · intro hc
      simp at hc
  | none =>
    cases he : (h.Run w (squeueStatusCmd h jobID w)).1.Err with
    | some e1 =>
      refine ⟨?_, ?_, ?_⟩
      · intro st e
        by_cases hs : HasSuffix (TrimRight (h.Run w (squeueStatusCmd h jobID w)).1.Stderr "\n")
            "Invalid job id specified" = true
        · simp [getJobStatus, hlp, he, hs]
        · simp [getJobStatus, hlp, he, hs]
          intro _
          exact eq_comm
      · intro hc
        simp at hc
      · intro _ hc
        simp at hc
    | none =>
      cases hr : rawStatus (h.Run w (squeueStatusCmd h jobID w)).1.Stdout with
      | none =>
        refine ⟨?_, ?_, ?_⟩
        · intro st e
          simp [getJobStatus, hlp, he, hr]
        · intro hc
          simp at hc
        · intro _ _ _ st e
          simp [getJobStatus, hlp, he, hr]
      | some raw =>
        have key : ∀ (st : Status) (e : GoError),
            (getJobStatus h jobID w).out = Outcome.returned (st, some e) ↔
              st = Status.StatusUnknown ∧ raw = "ST" ∧
                (h.LookPath (h.Run w (squeueStatusCmd h jobID w)).2 "sacct").2 = some e := by
          intro st e
          by_cases h1 : raw = "R"
          · subst h1
            simp [getJobStatus, hlp, he, hr]
          · by_cases h2 : raw = "PD"
            · subst h2
              simp [getJobStatus, hlp, he, hr]
            · by_cases h3 : raw = "ST"
              · subst h3
                cases hs : (h.LookPath (h.Run w (squeueStatusCmd h jobID w)).2 "sacct").2 with
                | some e2 =>
                  simp [getJobStatus, sacctStatus, hlp, he, hr, hs]
                  intro _
                  exact eq_comm
                | none =>
                  simp [getJobStatus, sacctStatus, hlp, he, hr, hs]
                  split
                  · split <;> simp
                  · simp
              · simp [getJobStatus, hlp, he, hr, h1, h2, h3]
        refine ⟨?_, ?_, ?_⟩
        · intro st e
          rw [key]
          simp
        · intro hc
          simp at hc
        · intro _ _ hs st e hc
          rw [key] at hc
          rw [hs] at hc
          simp at hc

/-! ## `JobStatus` -/

theorem queries_length {σ : Type} (h : Host σ) (ids : List Int) (w : σ) :
    (queries h ids w).length = ids.length := by
  induction ids generalizing w with
  | nil => rfl
  | cons id rest ih => simp [queries, ih]

theorem jobStatusLoop_ok {σ : Type} (h : Host σ) (ids : List Int) :
    ∀ (acc : List Status) (w : σ),
      (∀ q ∈ queries h ids w, ∃ st, q.out = Outcome.returned (st, none)) →
      ∃ ss : List Status,
        (jobStatusLoop h ids acc w).out = Outcome.returned (acc ++ ss, none) ∧
        ss.length = ids.length ∧
        ∀ (i : Nat) (hi : i < ss.length),
          ∃ q, (queries h ids w)[i]? = some q ∧ q.out = Outcome.returned (ss[i], none) := by
  induction ids with
  | nil =>
    intro acc w _
    exact ⟨[], by simp [jobStatusLoop], rfl, fun i hi => absurd hi (by simp)⟩
  | cons id rest ih =>
    intro acc w hall
    obtain ⟨st, hst⟩ := hall (getJobStatus h id w) (by simp [queries])
    obtain ⟨ss, h1, h2, h3⟩ := ih (acc ++ [st]) (getJobStatus h id w).world
      (fun q hq => hall q (by simp [queries, hq]))
    refine ⟨st :: ss, ?_, by simp [h2], ?_⟩
    · simp [jobStatusLoop, hst, h1]
    · intro i hi
      cases i with
      | zero => exact ⟨getJobStatus h id w, by simp [queries], by simpa using hst⟩
      | succ j =>
        have hj : j < ss.length := by simpa using hi
        obtain ⟨q, hq1, hq2⟩ := h3 j hj
        exact ⟨q, by simpa [queries] using hq1, by simpa using hq2⟩

/-- C7: when every individual query of `JobStatus` (each `getJobStatus` call,
in input order, run in the world its predecessor left) returns a status with
no error, `JobStatus` returns no error and a list as long as the input whose
element at each position is the status returned by the query at that
position. -/
theorem JobStatus_order_preserving {σ : Type} (h : Host σ) (jobIDs : List Int) (w : σ)
    (hall : ∀ q ∈ queries h jobIDs w, ∃ st, q.out = Outcome.returned (st, none)) :
    ∃ ss : List Status,
      (JobStatus h jobIDs w).out = Outcome.returned (ss, none) ∧
      ss.length = jobIDs.length ∧
      ∀ (i : Nat) (hi : i < ss.length),
        ∃ q, (queries h jobIDs w)[i]? = some q ∧ q.out = Outcome.returned (ss[i], none) := by
  obtain ⟨ss, h1, h2, h3⟩ := jobStatusLoop_ok h jobIDs [] w hall
  exact ⟨ss, by simpa [JobStatus] using h1, h2, h3⟩

theorem JobStatus_order_preserving_witness :
    (∀ q ∈ queries threeJobsHost [1, 2, 3] 0, ∃ st, q.out = Outcome.returned (st, none)) ∧
    (JobStatus threeJobsHost [1, 2, 3] 0).out
      = Outcome.returned ([Status.StatusRunning, Status.StatusQueued, Status.StatusDone], none) ∧
    ∃ ss : List Status,
      (JobStatus threeJobsHost [1, 2, 3] 0).out = Outcome.returned (ss, none) ∧
      ss.length = [(1 : Int), 2, 3].length ∧
      ∀ (i : Nat) (hi : i < ss.length),
        ∃ q, (queries threeJobsHost [1, 2, 3] 0)[i]? = some q ∧
          q.out = Outcome.returned (ss[i], none) :=
  have hall : ∀ q ∈ queries threeJobsHost [1, 2, 3] 0,
      ∃ st, q.out = Outcome.returned (st, none) := by
    intro q hq
    simp only [queries, List.mem_cons, List.mem_nil_iff, or_false] at hq
    rcases hq with rfl | rfl | rfl
    · exact ⟨Status.StatusRunning, by decide⟩
    · exact ⟨Status.StatusQueued, by decide⟩
    · exact ⟨Status.StatusDone, by decide⟩
  ⟨hall, by decide, JobStatus_order_preserving threeJobsHost [1, 2, 3] 0 hall⟩

theorem jobStatusLoop_fail {σ : Type} (h : Host σ) (ids : List Int) :
    ∀ (acc : List Status) (w : σ) (k : Nat) (qk : Exec σ (Status × Option GoError))
      (st : Status) (e : GoError),
      (queries h ids w)[k]? = some qk →
      qk.out = Outcome.returned (st, some e) →
      (∀ (i : Nat) (q : Exec σ (Status × Option GoError)), i < k →
        (queries h ids w)[i]? = some q → ∃ s, q.out = Outcome.returned (s, none)) →
      (jobStatusLoop h ids acc w).out = Outcome.returned ([], some e) ∧
      (jobStatusLoop h ids acc w).events
        = (((queries h ids w).take (k + 1)).map (fun q => q.events)).flatten ∧
      (jobStatusLoop h ids acc w).world = qk.world := by
  induction ids with
  | nil =>
    intro acc w k qk st e hk
    simp [queries] at hk
  | cons id rest ih =>
    intro acc w k qk st e hk hfail hbefore
    cases k with
    | zero =>
      have hq : getJobStatus h id w = qk := by simpa [queries] using hk
      rw [← hq] at hfail
      simp [jobStatusLoop, queries, hfail, ← hq]
    | succ j =>
      obtain ⟨s0, hs0⟩ := hbefore 0 (getJobStatus h id w) (by omega) (by simp [queries])
      have hk2 : (queries h rest (getJobStatus h id w).world)[j]? = some qk := by
        simpa [queries] using hk
      obtain ⟨h1, h2, h3⟩ := ih (acc ++ [s0]) (getJobStatus h id w).world j qk st e hk2 hfail
        (fun i q hi hq => hbefore (i + 1) q (by omega) (by simpa [queries] using hq))
      simp [jobStatusLoop, queries, hs0, h1, h2, h3]

/-- The error path of `JobStatus` when no earlier query panics: if every query
before position `k` returned a status with no error and query `k` returns the
error `e`, `JobStatus` returns the empty list together with `e`, whatever the
earlier statuses were; its external calls are exactly those of the queries at
positions `0..k`, so no later job ID is queried, and it leaves the world as
query `k` left it. -/
theorem JobStatus_all_or_nothing {σ : Type} (h : Host σ) (jobIDs : List Int) (w : σ)
    (k : Nat) (qk : Exec σ (Status × Option GoError)) (st : Status) (e : GoError)
    (hk : (queries h jobIDs w)[k]? = some qk)
    (hfail : qk.out = Outcome.returned (st, some e))
    (hbefore : ∀ (i : Nat) (q : Exec σ (Status × Option GoError)), i < k →
      (queries h jobIDs w)[i]? = some q → ∃ s, q.out = Outcome.returned (s, none)) :
    (JobStatus h jobIDs w).out = Outcome.returned ([], some e) ∧
    (JobStatus h jobIDs w).events
      = (((queries h jobIDs w).take (k + 1)).map (fun q => q.events)).flatten ∧
    (JobStatus h jobIDs w).world = qk.world :=
  jobStatusLoop_fail h jobIDs [] w k qk st e hk hfail hbefore

theorem JobStatus_all_or_nothing_witness :
    (JobStatus threeJobsHost [1, 4, 3] 0).out
      = Outcome.returned ([], some (GoError.other "exit status 1")) ∧
    (JobStatus threeJobsHost [1, 4, 3] 0).events
      = (((queries threeJobsHost [1, 4, 3] 0).take (1 + 1)).map (fun q => q.events)).flatten ∧
    (JobStatus threeJobsHost [1, 4, 3] 0).world = (getJobStatus threeJobsHost 4 1).world :=
  JobStatus_all_or_nothing threeJobsHost [1, 4, 3] 0 1 (getJobStatus threeJobsHost 4 1)
    Status.StatusUnknown (GoError.other "exit status 1") (by decide) (by decide)
    (by
      intro i q hi hq
      have h0 : i = 0 := by omega
      subst h0
      have hq2 : getJobStatus threeJobsHost 1 0 = q := by simpa [queries] using hq
      exact ⟨Status.StatusRunning, by rw [← hq2]; decide⟩)

/-- C8 fails on the code: on the list `[2, 4]`, where `squeue` succeeds with
an empty standard output for job 2 and fails for job 4, job 4 is the first job
ID whose query returns an error, yet the query for job 2 panics on the index
`lines[len(lines)-1]` and `JobStatus` panics with it: it returns neither the
error of job 4 nor an empty result, and job 4 is never queried. -/
theorem JobStatus_panics_before_first_error :
    (getJobStatus silentJobHost 2 0).out = Outcome.panicked ∧
    (getJobStatus silentJobHost 2 0).world = 1 ∧
    (getJobStatus silentJobHost 4 1).out
      = Outcome.returned (Status.StatusUnknown, some (GoError.other "exit status 1")) ∧
    queries silentJobHost [2, 4] 0
      = [getJobStatus silentJobHost 2 0, getJobStatus silentJobHost 4 1] ∧
    (JobStatus silentJobHost [2, 4] 0).out = Outcome.panicked ∧
    (JobStatus silentJobHost [2, 4] 0).out
      ≠ Outcome.returned ([], some (GoError.other "exit status 1")) ∧
    (JobStatus silentJobHost [2, 4] 0).events = (getJobStatus silentJobHost 2 0).events := by
  decide

/-! ## `GetNumJobs` -/

theorem split_joinLines (l : String) (ls : List String)
    (hnl : ∀ x ∈ l :: ls, '\n' ∉ x.data) :
    Split (joinLines (l :: ls)) '\n' = l :: ls := by
  induction ls generalizing l with
  | nil =>
    have h0 : '\n' ∉ l.data := hnl l (by simp)
    simp [joinLines, Split, splitChars_no_sep _ _ h0, string_mk_data]
  | cons l2 rest ih =>
    have h0 : '\n' ∉ l.data := hnl l (by simp)
    have h1 := ih l2 (fun x hx => hnl x (by simp [List.mem_cons] at hx ⊢; tauto))
    have e : (joinLines (l :: l2 :: rest)).data
        = l.data ++ '\n' :: (joinLines (l2 :: rest)).data := by
      simp [joinLines, String.data_append]
    simp only [Split] at h1 ⊢
    rw [e, splitChars_append_sep _ _ _ h0]
    simp [h1, string_mk_data]

theorem countJobs_foldl (lines : List String) (n : Int) :
    lines.foldl
      (fun numJobs line =>
        if Contains line "JOBID" = true ∨ line = "" then numJobs else numJobs + 1) n
    = n + ((lines.filter
        (fun line => !(decide (Contains line "JOBID" = true ∨ line = "")))).length : Int) := by
  induction lines generalizing n with
  | nil => simp
  | cons l ls ih =>
    by_cases hl : Contains l "JOBID" = true ∨ l = ""
    · rw [List.foldl_cons, if_pos hl, ih, List.filter_cons_of_neg (by simp [hl])]
    · rw [List.foldl_cons, if_neg hl, ih, List.filter_cons_of_pos (by simp [hl])]
      rw [List.length_cons]
      push_cast
      omega

/-- C9, as the code has it: when `squeue` is found and succeeds with a
standard output whose lines are a header line containing "JOBID" followed by
any lines of which none of the non-empty ones contains "JOBID", `GetNumJobs`
returns the number of non-empty lines after the header, with no error. -/
theorem GetNumJobs_counts_data_lines {σ : Type} (h : Host σ) (partitionName user : String)
    (w : σ) (header : String) (rest : List String)
    (hfound : (h.LookPath w "squeue").2 = none)
    (hok : (h.Run w (squeueListCmd h partitionName user w)).1.Err = none)
    (hout : (h.Run w (squeueListCmd h partitionName user w)).1.Stdout
      = joinLines (header :: rest))
    (hnl : ∀ l ∈ header :: rest, '\n' ∉ l.data)
    (hhdr : Contains header "JOBID" = true)
    (hdata : ∀ l ∈ rest, l ≠ "" → Contains l "JOBID" = false) :
    (GetNumJobs h partitionName user w).out
      = Outcome.returned (((rest.filter (fun l => decide (l ≠ ""))).length : Int), none) := by
  have hf : rest.filter (fun line => !(decide (Contains line "JOBID" = true ∨ line = "")))
      = rest.filter (fun l => decide (l ≠ "")) := by
    apply List.filter_congr
    intro l hl
    by_cases he : l = ""
    · simp [he]
    · simp [he, hdata l hl he]
  have hc : countJobs (header :: rest)
      = ((rest.filter (fun l => decide (l ≠ ""))).length : Int) := by
    unfold countJobs
    rw [countJobs_foldl, List.filter_cons_of_neg (by simp [hhdr]), hf]
    simp
  simp only [GetNumJobs, hfound, hok, hout, split_joinLines header rest hnl, hc]

theorem GetNumJobs_counts_data_lines_witness :
    (GetNumJobs (listingHost "JOBID PARTITION NAME USER\n12 debug lu alice\n\n13 debug cg alice\n")
      "debug" "alice" 0).out = Outcome.returned (2, none) :=
  GetNumJobs_counts_data_lines
    (listingHost "JOBID PARTITION NAME USER\n12 debug lu alice\n\n13 debug cg alice\n")
    "debug" "alice" 0 "JOBID PARTITION NAME USER"
    ["12 debug lu alice", "", "13 debug cg alice", ""]
    (by decide) (by decide) (by decide) (by decide) (by decide) (by decide)

/-- C9 as stated fails: `squeue` prints a header line containing "JOBID"
followed by one non-blank data line (a job whose name is `JOBID_sweep`), yet
`GetNumJobs` returns 0 and not 1, because the data line contains "JOBID"
too. -/
theorem GetNumJobs_skips_data_line_with_JOBID :
    (listingHost "JOBID PARTITION NAME USER\n12 debug JOBID_sweep alice\n").Run 0
        (squeueListCmd
          (listingHost "JOBID PARTITION NAME USER\n12 debug JOBID_sweep alice\n")
          "debug" "alice" 0)
      = (okResult (joinLines ["JOBID PARTITION NAME USER", "12 debug JOBID_sweep alice", ""]), 1) ∧
    Contains "JOBID PARTITION NAME USER" "JOBID" = true ∧
    (["12 debug JOBID_sweep alice", ""].filter (fun l => decide (l ≠ ""))).length = 1 ∧
    (GetNumJobs (listingHost "JOBID PARTITION NAME USER\n12 debug JOBID_sweep alice\n")
      "debug" "alice" 0).out = Outcome.returned (0, none) ∧
    (GetNumJobs (listingHost "JOBID PARTITION NAME USER\n12 debug JOBID_sweep alice\n")
      "debug" "alice" 0).out ≠ Outcome.returned (1, none) := by
  decide

/-! ## `GetNumNodes` -/

theorem digitChar_toNat (d : Nat) (hd : d < 10) : (digitChar d).toNat = 48 + d := by
  interval_cases d <;> rfl

theorem parse_formatLoop (maxVal : Nat) (fuel : Nat) :
    ∀ (u : Nat) (acc : List Char), u < fuel → u ≤ maxVal →
      parseUintLoop maxVal (formatLoop fuel u acc) 0 = parseUintLoop maxVal acc u := by
  induction fuel with
  | zero => intro u acc hu; omega
  | succ fuel ih =>
    intro u acc hu hmax
    by_cases h10 : u < 10
    · have hd := digitChar_toNat u h10
      simp only [formatLoop, h10, if_true, parseUintLoop, hd]
      rw [if_pos (by omega), if_neg (by omega)]
      simp
    · have hd := digitChar_toNat (u % 10) (Nat.mod_lt _ (by decide))
      have hdiv : u / 10 * 10 + u % 10 = u := by omega
      rw [formatLoop, if_neg h10, ih (u / 10) _ (by omega) (by omega)]
      simp only [parseUintLoop, hd]
      rw [if_pos (by omega), if_neg (by omega)]
      simp [hdiv]

theorem formatLoop_ne_nil (fuel : Nat) :
    ∀ (u : Nat) (acc : List Char), (0 < fuel ∨ acc ≠ []) → formatLoop fuel u acc ≠ [] := by
  induction fuel with
  | zero =>
    intro u acc h
    rcases h with h | h
    · omega
    · simpa [formatLoop] using h
  | succ fuel ih =>
    intro u acc _
    by_cases h10 : u < 10
    · simp [formatLoop, h10]
    · rw [formatLoop, if_neg h10]
      exact ih _ _ (Or.inr (by simp))

theorem parseUint_formatUint (intSize : Nat) (u : Nat) (hu : u ≤ 2 ^ intSize - 1) :
    ParseUint intSize (formatUint u) = (u, none) := by
  have hne : formatUint u ≠ [] := formatLoop_ne_nil _ _ _ (Or.inl (by omega))
  have hp := parse_formatLoop (2 ^ intSize - 1) (u + 1) u [] (by omega) hu
  unfold ParseUint
  cases hf : formatUint u with
  | nil => exact absurd hf hne
  | cons c cs =>
    simp only
    rw [← hf]
    unfold formatUint
    rw [hp]
    rfl

/-- Any two amounts of fuel above `u` make `formatLoop` produce the same
digits: the `u + 1` of `formatUint` is enough. -/
theorem formatLoop_fuel (fuel : Nat) :
    ∀ (fuel2 u : Nat) (acc : List Char), u < fuel → u < fuel2 →
      formatLoop fuel u acc = formatLoop fuel2 u acc := by
  induction fuel with
  | zero => intro fuel2 u acc hu; omega
  | succ fuel ih =>
    intro fuel2 u acc hu hu2
    cases fuel2 with
    | zero => omega
    | succ fuel2 =>
      by_cases h10 : u < 10
      · simp [formatLoop, h10]
      · rw [formatLoop, if_neg h10, formatLoop, if_neg h10]
        exact ih fuel2 _ _ (by omega) (by omega)

theorem atoi_of_parse (intSize : Nat) (s : String) (c : Char) (cs : List Char) (un : Nat)
    (hs : s.data = c :: cs)
    (hp : ParseUint intSize (if c = '+' ∨ c = '-' then cs else c :: cs) = (un, none)) :
    Atoi intSize s =
      if c ≠ '-' ∧ un ≥ 2 ^ (intSize - 1) then
        (((2 ^ (intSize - 1) : Nat) : Int) - 1, some (GoError.numError "Atoi" s NumErrKind.ErrRange))
      else if c = '-' ∧ un > 2 ^ (intSize - 1) then
        (-((2 ^ (intSize - 1) : Nat) : Int), some (GoError.numError "Atoi" s NumErrKind.ErrRange))
      else if c = '-' then (-(un : Int), none)
      else ((un : Int), none) := by
  unfold Atoi
  rw [hs]
  simp only [hp]
  by_cases hc : c = '-' <;> simp [hc]

theorem atoi_of_bad_digit (intSize : Nat) (s : String) (c : Char) (cs : List Char) (un : Nat)
    (hs : s.data = c :: cs)
    (hp : ParseUint intSize (if c = '+' ∨ c = '-' then cs else c :: cs)
      = (un, some NumErrKind.ErrSyntax)) :
    Atoi intSize s = (0, some (GoError.numError "Atoi" s NumErrKind.ErrSyntax)) := by
  unfold Atoi
  rw [hs]
  simp only [hp]

theorem atoi_of_range (intSize : Nat) (s : String) (c : Char) (cs : List Char)
    (hsz : 2 ≤ intSize)
    (hs : s.data = c :: cs)
    (hp : ParseUint intSize (if c = '+' ∨ c = '-' then cs else c :: cs)
      = (2 ^ intSize - 1, some NumErrKind.ErrRange)) :
    (Atoi intSize s).2 = some (GoError.numError "Atoi" s NumErrKind.ErrRange) := by
  have h1 : 2 ^ intSize = 2 * 2 ^ (intSize - 1) := by
    rw [← pow_succ']
    congr 1
    omega
  have h2 : 2 ≤ 2 ^ (intSize - 1) := by
    calc 2 = 2 ^ 1 := rfl
      _ ≤ 2 ^ (intSize - 1) := Nat.pow_le_pow_right (by decide) (by omega)
  unfold Atoi
  rw [hs]
  simp only [hp]
  by_cases hc : c = '-'
  · have : 2 ^ (intSize - 1) < 2 ^ intSize - 1 := by omega
    simp [hc, this]
  · have : 2 ^ (intSize - 1) ≤ 2 ^ intSize - 1 := by omega
    simp [hc, this]

theorem parseUintLoop_cases (maxVal : Nat) (cs : List Char) :
    ∀ (n : Nat),
      (parseUintLoop maxVal cs n
          = (cs.foldl (fun n c => n * 10 + (c.toNat - 48)) n, none) ∧
        (∀ c ∈ cs, 48 ≤ c.toNat ∧ c.toNat ≤ 57)) ∨
      parseUintLoop maxVal cs n = (maxVal, some NumErrKind.ErrRange) ∨
      parseUintLoop maxVal cs n = (0, some NumErrKind.ErrSyntax) := by
  induction cs with
  | nil => intro n; simp [parseUintLoop]
  | cons c cs ih =>
    intro n
    by_cases hd : 48 ≤ c.toNat ∧ c.toNat ≤ 57
    · by_cases hr : n * 10 + (c.toNat - 48) > maxVal
      · right; left
        simp [parseUintLoop, hd, hr]
      · rcases ih (n * 10 + (c.toNat - 48)) with h1 | h1 | h1
        · left
          refine ⟨?_, ?_⟩
          · rw [parseUintLoop, if_pos hd, if_neg hr, h1.1]
            rfl
          · intro x hx
            rcases List.mem_cons.1 hx with rfl | hx
            · exact hd
            · exact h1.2 x hx
        · right; left
          rw [parseUintLoop, if_pos hd, if_neg hr, h1]
        · right; right
          rw [parseUintLoop, if_pos hd, if_neg hr, h1]
    · right; right
      rw [parseUintLoop, if_neg hd]

theorem parseUint_cases (intSize : Nat) (body : List Char) :
    (ParseUint intSize body = (decimalValue body, none) ∧ body ≠ [] ∧
        (∀ c ∈ body, 48 ≤ c.toNat ∧ c.toNat ≤ 57)) ∨
      ParseUint intSize body = (2 ^ intSize - 1, some NumErrKind.ErrRange) ∨
      ParseUint intSize body = (0, some NumErrKind.ErrSyntax) := by
  cases body with
  | nil => right; right; rfl
  | cons c cs =>
    rcases parseUintLoop_cases (2 ^ intSize - 1) (c :: cs) 0 with h1 | h1 | h1
    · left
      exact ⟨h1.1, by simp, h1.2⟩
    · right; left
      exact h1
    · right; right
      exact h1

/-- The function `Atoi` inverts `Itoa` on every integer an `int` of `intSize` bits holds. -/
theorem atoi_itoa (intSize : Nat) (hsz : 2 ≤ intSize) (n : Int)
    (hlo : -(2 ^ (intSize - 1) : Int) ≤ n) (hhi : n < (2 ^ (intSize - 1) : Int)) :
    Atoi intSize (Itoa n) = (n, none) := by
  have h1 : 2 ^ intSize = 2 * 2 ^ (intSize - 1) := by
    rw [← pow_succ']
    congr 1
    omega
  have hpos : 0 < 2 ^ (intSize - 1) := pow_pos (by decide) _
  have hcast : ((2 ^ (intSize - 1) : Nat) : Int) = (2 : Int) ^ (intSize - 1) := by
    push_cast
    rfl
  by_cases hneg : n < 0
  · have hu : n.natAbs ≤ 2 ^ (intSize - 1) := by omega
    have hp := parseUint_formatUint intSize n.natAbs (by omega)
    have hs : (Itoa n).data = '-' :: formatUint n.natAbs := by simp [Itoa, hneg]
    have := atoi_of_parse intSize (Itoa n) '-' (formatUint n.natAbs) n.natAbs hs
      (by simpa using hp)
    rw [this]
    have hval : -(n.natAbs : Int) = n := by omega
    rw [if_neg (by simp), if_neg (by omega), if_pos rfl, hval]
  · have hu : n.natAbs < 2 ^ (intSize - 1) := by omega
    have hp := parseUint_formatUint intSize n.natAbs (by omega)
    cases hf : formatUint n.natAbs with
    | nil => rw [hf] at hp; simp [ParseUint] at hp
    | cons c cs =>
      rw [hf] at hp
      have hdig : 48 ≤ c.toNat ∧ c.toNat ≤ 57 := by
        rcases parseUint_cases intSize (c :: cs) with h | h | h
        · exact h.2.2 c (by simp)
        · rw [hp] at h; simp at h
        · rw [hp] at h; simp at h
      have hplus : c ≠ '+' := by
        intro e
        rw [e] at hdig
        exact absurd hdig (by decide)
      have hminus : c ≠ '-' := by
        intro e
        rw [e] at hdig
        exact absurd hdig (by decide)
      have hs : (Itoa n).data = c :: cs := by simp [Itoa, hneg, hf]
      have := atoi_of_parse intSize (Itoa n) c cs n.natAbs hs (by simpa [hplus, hminus] using hp)
      rw [this]
      have hval : (n.natAbs : Int) = n := by omega
      rw [if_neg (by omega), if_neg (by simp [hminus]), if_neg hminus, hval]

theorem atoi_ok_body (intSize : Nat) (hsz : 2 ≤ intSize) (s : String) (c : Char)
    (cs body : List Char) (hs : s.data = c :: cs)
    (hb : (if c = '+' ∨ c = '-' then cs else c :: cs) = body)
    (hok : (Atoi intSize s).2 = none) :
    body ≠ [] ∧ (∀ x ∈ body, 48 ≤ x.toNat ∧ x.toNat ≤ 57) ∧
    (if c = '-' then decimalValue body ≤ 2 ^ (intSize - 1)
      else decimalValue body < 2 ^ (intSize - 1)) := by
  rcases parseUint_cases intSize body with h | h | h
  · obtain ⟨hp, hne, hdig⟩ := h
    have := atoi_of_parse intSize s c cs (decimalValue body) hs (by rw [hb]; exact hp)
    rw [this] at hok
    refine ⟨hne, hdig, ?_⟩
    by_cases hm : c = '-'
    · rw [if_pos hm]
      by_contra hgt
      rw [if_neg (by simp [hm]), if_pos ⟨hm, by omega⟩] at hok
      simp at hok
    · rw [if_neg hm]
      by_contra hge
      rw [if_pos ⟨hm, by omega⟩] at hok
      simp at hok
  · have := atoi_of_range intSize s c cs hsz hs (by rw [hb]; exact h)
    rw [this] at hok
    simp at hok
  · have := atoi_of_bad_digit intSize s c cs 0 hs (by rw [hb]; exact h)
    rw [this] at hok
    simp at hok

/-- Every text `Atoi` accepts is an optional sign followed by decimal digits
denoting a number in range. -/
theorem atoi_ok_valid (intSize : Nat) (hsz : 2 ≤ intSize) (s : String)
    (hok : (Atoi intSize s).2 = none) : IsIntegerText intSize s := by
  cases hs : s.data with
  | nil => simp [Atoi, hs] at hok
  | cons c cs =>
    by_cases hm : c = '-'
    · obtain ⟨h1, h2, h3⟩ := atoi_ok_body intSize hsz s c cs cs hs (by simp [hm]) hok
      rw [if_pos hm] at h3
      exact ⟨['-'], cs, by simp [hs, hm], by simp, h1, h2, by simpa using h3⟩
    · by_cases hpl : c = '+'
      · obtain ⟨h1, h2, h3⟩ := atoi_ok_body intSize hsz s c cs cs hs (by simp [hpl]) hok
        rw [if_neg hm] at h3
        exact ⟨['+'], cs, by simp [hs, hpl], by simp, h1, h2, by simpa using h3⟩
      · obtain ⟨h1, h2, h3⟩ :=
          atoi_ok_body intSize hsz s c cs (c :: cs) hs (by simp [hm, hpl]) hok
        rw [if_neg hm] at h3
        exact ⟨[], c :: cs, by simp [hs], by simp, h1, h2, by simpa using h3⟩

/-- C10: on a platform whose `int` has 32 or 64 bits, (1) for every integer
`n` in the range of `int`, when `SLURM_JOB_NUM_NODES` holds the text
`strconv.Itoa` produces for `n`, `GetNumNodes` returns `n` with no error;
(2) when the variable reads as the empty string (it is unset), `GetNumNodes`
returns an error; (3) when its value is not a valid integer text (optional
sign, one or more decimal digits, value in the range of `int`),
`GetNumNodes` returns an error. -/
theorem GetNumNodes_parses_decimal {σ : Type} (h : Host σ) (w : σ) (intSize : Nat)
    (hsz : intSize = 32 ∨ intSize = 64) :
    (∀ n : Int, -(2 ^ (intSize - 1) : Int) ≤ n → n < (2 ^ (intSize - 1) : Int) →
      h.Getenv w "SLURM_JOB_NUM_NODES" = Itoa n → GetNumNodes h intSize w = (n, none)) ∧
    (h.Getenv w "SLURM_JOB_NUM_NODES" = "" → (GetNumNodes h intSize w).2 ≠ none) ∧
    (¬ IsIntegerText intSize (h.Getenv w "SLURM_JOB_NUM_NODES") →
      (GetNumNodes h intSize w).2 ≠ none) := by
  have h2 : 2 ≤ intSize := by omega
  refine ⟨?_, ?_, ?_⟩
  · intro n hlo hhi henv
    simp only [GetNumNodes, envVarNumNodes, henv]
    exact atoi_itoa intSize h2 n hlo hhi
  · intro henv
    simp [GetNumNodes, envVarNumNodes, henv, Atoi]
  · intro hbad hok
    exact hbad (atoi_ok_valid intSize h2 _ hok)

theorem GetNumNodes_parses_decimal_witness :
    GetNumNodes (allocHost "4") 64 0 = (4, none) ∧
    (GetNumNodes (allocHost "") 64 0).2 ≠ none :=
  ⟨(GetNumNodes_parses_decimal (allocHost "4") 0 64 (Or.inr rfl)).1 4
      (by decide) (by decide) (by decide),
   (GetNumNodes_parses_decimal (allocHost "") 0 64 (Or.inr rfl)).2.1 (by decide)⟩

/-! ## The line-removal loop of `getJobStatus` -/

theorem removeFromSlice_length (a : List String) (idx : Nat) (h : idx < a.length) :
    (removeFromSlice a idx).length = a.length - 1 := by
  simp [removeFromSlice]
  omega

/-- Any two amounts of fuel of at least `len(lines) - i` make the loop end
with the same slice: the `len(lines)` of `removeEmptyLines` is enough. -/
theorem removeEmptyLoop_fuel (fuel : Nat) :
    ∀ (fuel2 i : Nat) (lines : List String),
      lines.length - i ≤ fuel → lines.length - i ≤ fuel2 →
      removeEmptyLoop fuel i lines = removeEmptyLoop fuel2 i lines := by
  induction fuel with
  | zero =>
    intro fuel2 i lines h1 _
    cases fuel2 with
    | zero => rfl
    | succ f2 =>
      have : ¬ i < lines.length := by omega
      simp [removeEmptyLoop, this]
  | succ fuel ih =>
    intro fuel2 i lines h1 h2
    cases fuel2 with
    | zero =>
      have : ¬ i < lines.length := by omega
      simp [removeEmptyLoop, this]
    | succ f2 =>
      by_cases hi : i < lines.length
      · have hl := removeFromSlice_length lines i hi
        by_cases he : lines[i] = ""
        · simp only [removeEmptyLoop, hi, dite_true, he, if_true]
          exact ih f2 (i + 1) _ (by omega) (by omega)
        · simp only [removeEmptyLoop, hi, dite_true, he, if_false]
          exact ih f2 (i + 1) _ (by omega) (by omega)
      · simp [removeEmptyLoop, hi]

theorem removeEmptyLoop_ne_nil (fuel : Nat) :
    ∀ (i : Nat) (lines : List String), 1 ≤ i → lines ≠ [] →
      removeEmptyLoop fuel i lines ≠ [] := by
  induction fuel with
  | zero => intro i lines _ h; simpa [removeEmptyLoop] using h
  | succ fuel ih =>
    intro i lines hi hne
    by_cases hlt : i < lines.length
    · by_cases he : lines[i] = ""
      · simp only [removeEmptyLoop, hlt, dite_true, he, if_true]
        apply ih (i + 1) _ (by omega)
        intro hnil
        have := removeFromSlice_length lines i hlt
        rw [hnil] at this
        simp at this
        omega
      · simp only [removeEmptyLoop, hlt, dite_true, he, if_false]
        exact ih (i + 1) _ (by omega) hne
    · simpa [removeEmptyLoop, hlt] using hne

theorem removeEmptyLoop_zero_cons (fuel : Nat) (x : String) (rest : List String) :
    removeEmptyLoop (fuel + 1) 0 (x :: rest)
      = if x = "" then removeEmptyLoop fuel 1 rest else removeEmptyLoop fuel 1 (x :: rest) := by
  simp [removeEmptyLoop, removeFromSlice]

/-- The loop leaves an empty slice only when it starts from the single empty
line (or from no line at all). -/
theorem removeEmptyLines_eq_nil_iff (lines : List String) :
    removeEmptyLines lines = [] ↔ lines = [] ∨ lines = [""] := by
  unfold removeEmptyLines
  cases lines with
  | nil => simp [removeEmptyLoop]
  | cons x rest =>
    rw [List.length_cons, removeEmptyLoop_zero_cons]
    by_cases hx : x = ""
    · rw [if_pos hx]
      cases rest with
      | nil => simp [removeEmptyLoop, hx]
      | cons y ys =>
        have := removeEmptyLoop_ne_nil (ys.length + 1) 1 (y :: ys) (by omega) (by simp)
        simp [this]
    · rw [if_neg hx]
      have := removeEmptyLoop_ne_nil rest.length 1 (x :: rest) (by omega) (by simp)
      simp [this, hx]

theorem splitChars_eq_singleton_nil (sep : Char) (l : List Char) :
    splitChars sep l = [[]] ↔ l = [] := by
  cases l with
  | nil => simp [splitChars]
  | cons c cs =>
    have hne := splitChars_ne_nil sep cs
    by_cases hc : c = sep
    · simp [splitChars, hc, hne]
    · simp only [splitChars, hc, if_false]
      cases hsp : splitChars sep cs with
      | nil => exact absurd hsp hne
      | cons a as => simp

/-- The index `lines[len(lines)-1]` of `getJobStatus` is out of range exactly
when the standard output of `squeue` is the empty string. -/
theorem rawStatus_eq_none_iff (stdout : String) : rawStatus stdout = none ↔ stdout = "" := by
  unfold rawStatus
  simp only [index?_last]
  have hsplit : Split stdout '\n' = [""] ↔ stdout = "" := by
    unfold Split
    constructor
    · intro h
      have : splitChars '\n' stdout.data = [[]] := by
        cases hs : splitChars '\n' stdout.data with
        | nil => rw [hs] at h; simp at h
        | cons a as =>
          rw [hs] at h
          simp at h
          obtain ⟨h1, h2⟩ := h
          have ha : a = [] := by
            have := congrArg String.data h1
            simpa using this
          simp [ha, h2]
      exact String.ext ((splitChars_eq_singleton_nil _ _).1 this)
    · intro h
      subst h
      rfl
  have hne : Split stdout '\n' ≠ [] := by
    unfold Split
    simp [splitChars_ne_nil]
  cases hl : (removeEmptyLines (Split stdout '\n')).getLast? with
  | none =>
    have h0 : removeEmptyLines (Split stdout '\n') = [] := by
      simpa [List.getLast?_eq_none_iff] using hl
    rcases (removeEmptyLines_eq_nil_iff _).1 h0 with h1 | h1
    · exact absurd h1 hne
    · simp [hsplit.1 h1]
  | some l =>
    simp only [false_iff, reduceCtorEq]
    intro hs
    rw [hsplit.2 hs] at hl
    simp [removeEmptyLines, removeEmptyLoop, removeFromSlice] at hl

/-- C2 fails on the code: with standard output "ST", "R" and two newlines
after it, the lines are `["ST", "R", "", ""]`; the loop removes only the first
of the two consecutive empty strings, so the last remaining line is the empty
string, not the last non-empty line "R", and `getJobStatus` returns Unknown
where one trailing newline less gives Running. -/
theorem getJobStatus_keeps_second_blank_line :
    Split "ST\nR\n\n" '\n' = ["ST", "R", "", ""] ∧
    removeEmptyLines ["ST", "R", "", ""] = ["ST", "R", ""] ∧
    ((Split "ST\nR\n\n" '\n').filter (fun l => decide (l ≠ ""))).getLast? = some "R" ∧
    rawStatus "ST\nR\n\n" = some "" ∧
    (getJobStatus (slurmHost (okResult "ST\nR\n\n") (okResult "")) 42 0).out
      = Outcome.returned (Status.StatusUnknown, none) ∧
    (getJobStatus (slurmHost (okResult "ST\nR\n") (okResult "")) 42 0).out
      = Outcome.returned (Status.StatusRunning, none) := by
  decide

/-- C3 fails on the code: when `squeue` succeeds with an empty standard
output, `Split` yields the single empty line, the loop removes it, and the
index `lines[len(lines)-1]` is out of range: `getJobStatus` panics instead of
returning Unknown. -/
theorem getJobStatus_panics_on_empty_output :
    Split "" '\n' = [""] ∧
    removeEmptyLines [""] = [] ∧
    index? (removeEmptyLines (Split "" '\n'))
      (((removeEmptyLines (Split "" '\n')).length : Int) - 1) = none ∧
    (getJobStatus (slurmHost (okResult "") (okResult "")) 42 0).out = Outcome.panicked := by
  decide

end Slurm
